import Mathlib

/-! Shallow embedding of `sign-queries` (src/main.rs): a build-time tool that
extracts GraphQL request descriptors from generated `.graphql.ts` files and
emits an HMAC-signed, sorted name-to-digest map.  File contents are
modelled as `List Char`; the swc syntax tree is modelled by a small mutual
inductive; the thread-pool fan-in of `main` is modelled as the list of
results in the order they are received on the channel. -/

namespace SignQueries

/-- `const CONCRETE_REQUEST: &str = "ConcreteRequest";` -/
def CONCRETE_REQUEST : List Char := "ConcreteRequest".data

/-- Rust `char::is_whitespace` (Unicode `White_Space` property). -/
def isRustWs (c : Char) : Bool :=
  c = ' ' || c = '\t' || c = '\n' || c = '\r' ||
  c.toNat = 0x0b || c.toNat = 0x0c || c.toNat = 0x85 || c.toNat = 0xa0 ||
  c.toNat = 0x1680 || (0x2000 ≤ c.toNat && c.toNat ≤ 0x200a) ||
  c.toNat = 0x2028 || c.toNat = 0x2029 || c.toNat = 0x202f ||
  c.toNat = 0x205f || c.toNat = 0x3000

/-- Leading-whitespace stripping half of Rust `str::trim`. -/
def trimLeftCh : List Char → List Char
  | [] => []
  | c :: r => if isRustWs c then trimLeftCh r else c :: r

/-- Trailing-whitespace stripping half of Rust `str::trim`. -/
def trimRightCh : List Char → List Char
  | [] => []
  | c :: r =>
    match trimRightCh r with
    | [] => if isRustWs c then [] else [c]
    | r' => c :: r'

/-- Rust `str::trim`: strip `char::is_whitespace` characters from both ends. -/
def trimCh (l : List Char) : List Char := trimRightCh (trimLeftCh l)

/-- Split a character list at every newline character (`'\n'` separators). -/
def splitNl : List Char → List (List Char)
  | [] => [[]]
  | c :: r =>
    if c = '\n' then [] :: splitNl r
    else
      match splitNl r with
      | [] => [[c]]
      | l :: ls => (c :: l) :: ls

/-- Strip one trailing carriage return, as Rust `str::lines` does for each
newline-terminated line. -/
def stripCr (l : List Char) : List Char :=
  if l.getLast? = some '\r' then l.dropLast else l

/-- Rust `str::lines`: lines are separated by `'\n'` (a preceding `'\r'` is
dropped); a final line ending is optional, and a last segment that is not
newline-terminated keeps any trailing `'\r'`. -/
def rustLines (s : List Char) : List (List Char) :=
  if s = [] then []
  else if s.getLast? = some '\n' then (splitNl s).dropLast.map stripCr
  else ((splitNl s).dropLast.map stripCr) ++ [(splitNl s).getLastD []]

/-- Suffix of `s` starting at the first occurrence of `pat`, modelling Rust
`str::find` composed with slicing the match offset to the end
(`&contents[concrete..]`). -/
def findSuffix (pat : List Char) : List Char → Option (List Char)
  | [] => if List.isPrefixOf pat ([] : List Char) then some [] else none
  | c :: r => if List.isPrefixOf pat (c :: r) then some (c :: r) else findSuffix pat r

/-- `params.join("")`: concatenation of the accumulated lines. -/
def joinAll (ls : List (List Char)) : List Char := ls.foldr (· ++ ·) []

/-- The literal `"params": {` that `find_params` looks for in trimmed lines. -/
def PARAMS_PAT : List Char := "\"params\": \x7b".data

/-- `line.trim().starts_with("\"params\": {")`. -/
def isParamsLine (l : List Char) : Bool := List.isPrefixOf PARAMS_PAT (trimCh l)

/-- The `ws_count` loop of `find_params`: number of leading
`char::is_whitespace` characters of a line. -/
def leadingWsCount : List Char → Nat
  | [] => 0
  | c :: r => if isRustWs c then leadingWsCount r + 1 else 0

/-- Right-alignment padding with spaces, as in `format!("{0: >1$}", c, w)`. -/
def padLeftTo (w : Nat) (s : List Char) : List Char :=
  List.replicate (w - s.length) ' ' ++ s

/-- The closing-delimiter literal `format!("{0: >1$}", '}', ws_count+1)`:
the character `}` right-aligned in a field of width `ws_count + 1`. -/
def closingDelim (wsCount : Nat) : List Char := padLeftTo (wsCount + 1) ['\x7d']

/-- The line loop of `find_params`: `ls` are the remaining lines, the second
argument is `found_params` (the computed closing delimiter, once the
`"params": {` line has been seen), `acc` is the `params` vector. -/
def findParamsGo : List (List Char) → Option (List Char) → List (List Char) → List (List Char)
  | [], _, acc => acc
  | l :: ls, some e, acc =>
    if List.isPrefixOf e l then acc ++ [l]
    else if isParamsLine l then
      findParamsGo ls (some (closingDelim (leadingWsCount l))) (acc ++ [l, ['\x7b']])
    else findParamsGo ls (some e) (acc ++ [l])
  | l :: ls, none, acc =>
    if isParamsLine l then
      findParamsGo ls (some (closingDelim (leadingWsCount l))) (acc ++ [['\x7b']])
    else findParamsGo ls none acc

/-- `fn find_params(contents: &String) -> Option<String>`: slice the content
at the first `ConcreteRequest` occurrence, scan its lines for the
`"params": {` block, and join the accumulated lines. -/
def find_params (contents : List Char) : Option (List Char) :=
  match findSuffix CONCRETE_REQUEST contents with
  | none => none
  | some rest => some (joinAll (findParamsGo (rustLines rest) none []))

/-- `enum Strategy { Manual, Swc }` -/
inductive Strategy where
  | Manual : Strategy
  | Swc : Strategy
deriving DecidableEq, Repr

/-- `impl From<String> for Strategy`: `"swc" | "SWC" | "Swc"` select `Swc`,
everything else selects `Manual`. -/
def Strategy.fromString (s : String) : Strategy :=
  if s = "swc" ∨ s = "SWC" ∨ s = "Swc" then .Swc else .Manual

/-- `env::args().nth(4).unwrap_or("swc".to_string()).into()`: the strategy
selected by `main` from the optional fourth positional argument. -/
def selectStrategy (arg : Option String) : Strategy :=
  Strategy.fromString (arg.getD "swc")

/-- `enum Error` of main.rs (the `IoError` payload is dropped: i/o itself is
not modelled). -/
inductive Error where
  | MissingDirectory : Error
  | MissingSigningKey : Error
  | IoError : Error
  | ParamSerialization : Error
  | SignatureFileCreation : Error
  | SignatureSerialization : Error
deriving DecidableEq, Repr

/-! ## JSON values and deserialization (model of `serde_json::from_str::<Params>`)

`serde_json` is an external crate; it is modelled here as a standard JSON
parser (RFC 8259 grammar; `\uXXXX` string escapes and the 128-level
recursion limit are not modelled, and duplicate object keys resolve to the
first occurrence instead of erroring — none of which any theorem below
touches). -/

/-- A parsed JSON value (`serde_json::Value`); numbers keep their raw text. -/
inductive Json where
  | null : Json
  | bool : Bool → Json
  | num : List Char → Json
  | str : List Char → Json
  | arr : List Json → Json
  | obj : List (List Char × Json) → Json

/-- JSON insignificant whitespace. -/
def isJsonWs (c : Char) : Bool := c = ' ' || c = '\t' || c = '\n' || c = '\r'

/-- Drop leading JSON whitespace. -/
def skipJsonWs : List Char → List Char
  | [] => []
  | c :: r => if isJsonWs c then skipJsonWs r else c :: r

/-- Single-character JSON string escapes (`\uXXXX` is not modelled). -/
def escChar (e : Char) : Option Char :=
  if e = '"' then some '"'
  else if e = '\\' then some '\\'
  else if e = '/' then some '/'
  else if e = 'b' then some '\x08'
  else if e = 'f' then some '\x0c'
  else if e = 'n' then some '\n'
  else if e = 'r' then some '\r'
  else if e = 't' then some '\t'
  else none

mutual

/-- Parse a JSON string body after the opening quote; returns the cooked
characters and the input after the closing quote. -/
def parseStringBody : List Char → Option (List Char × List Char)
  | [] => none
  | c :: r =>
    if c = '"' then some ([], r)
    else if c = '\\' then parseStringEsc r
    else if c.toNat < 0x20 then none
    else
      match parseStringBody r with
      | none => none
      | some (s, r2) => some (c :: s, r2)

/-- Continuation of a JSON string body right after a backslash. -/
def parseStringEsc : List Char → Option (List Char × List Char)
  | [] => none
  | e :: r2 =>
    match escChar e with
    | none => none
    | some ec =>
      match parseStringBody r2 with
      | none => none
      | some (s, r3) => some (ec :: s, r3)

end

/-- Longest leading run of ASCII digits. -/
def takeDigits : List Char → (List Char × List Char)
  | [] => ([], [])
  | c :: r =>
    if c.isDigit then
      match takeDigits r with
      | (d, r') => (c :: d, r')
    else ([], c :: r)

/-- Optional JSON fraction part. -/
def parseFrac : List Char → Option (List Char × List Char)
  | '.' :: r =>
    (match takeDigits r with
     | ([], _) => none
     | (d, r2) => some ('.' :: d, r2))
  | s => some ([], s)

/-- Optional JSON exponent part. -/
def parseExp : List Char → Option (List Char × List Char)
  | [] => some ([], [])
  | c :: r =>
    if c = 'e' ∨ c = 'E' then
      let sgr : List Char × List Char :=
        match r with
        | '+' :: r2 => (['+'], r2)
        | '-' :: r2 => (['-'], r2)
        | _ => ([], r)
      match takeDigits sgr.2 with
      | ([], _) => none
      | (d, r2) => some (c :: (sgr.1 ++ d), r2)
    else some ([], c :: r)

/-- JSON number: `-? int frac? exp?`, no leading zeros; returns raw text. -/
def parseNumber (s : List Char) : Option (List Char × List Char) :=
  let sg : List Char × List Char :=
    match s with
    | '-' :: r => (['-'], r)
    | _ => ([], s)
  match takeDigits sg.2 with
  | ([], _) => none
  | (ip, s2) =>
    if 1 < ip.length ∧ ip.headI = '0' then none
    else
      match parseFrac s2 with
      | none => none
      | some (fp, s3) =>
        match parseExp s3 with
        | none => none
        | some (ep, s4) => some (sg.1 ++ ip ++ fp ++ ep, s4)

mutual

/-- Parse one JSON value (after optional leading whitespace).  The fuel
decreases on every recursive call; since every call also consumes at least
one input character, fuel `length + 1` (as used by `serdeFromStr`) never
runs out on any input. -/
def parseValue : Nat → List Char → Option (Json × List Char)
  | 0, _ => none
  | f + 1, s =>
    match skipJsonWs s with
    | '\x7b' :: r =>
      (match skipJsonWs r with
       | '\x7d' :: r2 => some (.obj [], r2)
       | r2 =>
         match parseMembers f r2 with
         | none => none
         | some (ms, r3) => some (.obj ms, r3))
    | '[' :: r =>
      (match skipJsonWs r with
       | ']' :: r2 => some (.arr [], r2)
       | r2 =>
         match parseElems f r2 with
         | none => none
         | some (es, r3) => some (.arr es, r3))
    | '"' :: r =>
      (match parseStringBody r with
       | none => none
       | some (sb, r2) => some (.str sb, r2))
    | 'n' :: 'u' :: 'l' :: 'l' :: r => some (.null, r)
    | 't' :: 'r' :: 'u' :: 'e' :: r => some (.bool true, r)
    | 'f' :: 'a' :: 'l' :: 's' :: 'e' :: r => some (.bool false, r)
    | r =>
      match parseNumber r with
      | none => none
      | some (raw, r2) => some (.num raw, r2)

/-- Parse the members of a non-empty JSON object, up to and including the
closing brace. -/
def parseMembers : Nat → List Char → Option (List (List Char × Json) × List Char)
  | 0, _ => none
  | f + 1, s =>
    match skipJsonWs s with
    | '"' :: r =>
      (match parseStringBody r with
       | none => none
       | some (key, r2) =>
         match skipJsonWs r2 with
         | ':' :: r3 =>
           (match parseValue f r3 with
            | none => none
            | some (v, r4) =>
              match skipJsonWs r4 with
              | ',' :: r5 =>
                (match parseMembers f r5 with
                 | none => none
                 | some (ms, r6) => some ((key, v) :: ms, r6))
              | '\x7d' :: r5 => some ([(key, v)], r5)
              | _ => none)
         | _ => none)
    | _ => none

/-- Parse the elements of a non-empty JSON array, up to and including the
closing bracket. -/
def parseElems : Nat → List Char → Option (List Json × List Char)
  | 0, _ => none
  | f + 1, s =>
    match parseValue f s with
    | none => none
    | some (v, r) =>
      match skipJsonWs r with
      | ',' :: r2 =>
        (match parseElems f r2 with
         | none => none
         | some (es, r3) => some (v :: es, r3))
      | ']' :: r2 => some ([v], r2)
      | _ => none

end

/-- `struct Params` of main.rs (serde field names: `cacheID`, `id`,
`metadata`, `name`, `operationKind`, `text`). -/
structure Params where
  cache_id : String
  id : Option String
  metadata : Json
  name : String
  operation_kind : String
  text : String

/-- `Params::default()`: empty strings, `None`, `Value::Null`. -/
def Params.default : Params :=
  { cache_id := "", id := none, metadata := .null, name := "",
    operation_kind := "", text := "" }

/-- First binding of `key` in an object member list. -/
def lookupMember (key : List Char) : List (List Char × Json) → Option Json
  | [] => none
  | (k, v) :: ms => if k = key then some v else lookupMember key ms

/-- Require a JSON string. -/
def asString : Option Json → Option (List Char)
  | some (.str s) => some s
  | _ => none

/-- serde field matching for `Params`: `cacheID`, `metadata`, `name`,
`operationKind` and `text` are required (`metadata: Value` accepts any
value, the others must be strings); `id: Option<String>` may be absent,
`null`, or a string; unknown fields are ignored. -/
def paramsOfJson : Json → Option Params
  | .obj ms =>
    (match asString (lookupMember "cacheID".data ms),
           lookupMember "metadata".data ms,
           asString (lookupMember "name".data ms),
           asString (lookupMember "operationKind".data ms),
           asString (lookupMember "text".data ms) with
     | some cid, some md, some nm, some opk, some tx =>
       (match lookupMember "id".data ms with
        | none =>
          some { cache_id := String.mk cid, id := none, metadata := md,
                 name := String.mk nm, operation_kind := String.mk opk,
                 text := String.mk tx }
        | some .null =>
          some { cache_id := String.mk cid, id := none, metadata := md,
                 name := String.mk nm, operation_kind := String.mk opk,
                 text := String.mk tx }
        | some (.str i) =>
          some { cache_id := String.mk cid, id := some (String.mk i),
                 metadata := md, name := String.mk nm,
                 operation_kind := String.mk opk, text := String.mk tx }
        | some _ => none)
     | _, _, _, _, _ => none)
  | _ => none

/-- `serde_json::from_str::<Params>(&raw_params)`: parse one JSON value,
allow only trailing whitespace after it, then deserialize into `Params`. -/
def serdeFromStr (s : List Char) : Option Params :=
  match parseValue (s.length + 1) s with
  | none => none
  | some (j, rest) => if skipJsonWs rest = [] then paramsOfJson j else none

/-- `fn get_params<P>(filepath) -> Result<Option<Params>, Error>`, with the
file content passed directly (the `read_to_string` i/o and its `IoError`
are outside the model): a found fragment that fails to deserialize is
`Err(Error::ParamSerialization)`; no fragment is `Ok(None)`. -/
def get_params (contents : List Char) : Except Error (Option Params) :=
  match find_params contents with
  | some raw =>
    (match serdeFromStr raw with
     | some p => .ok (some p)
     | none => .error .ParamSerialization)
  | none => .ok none

/-! ## The swc syntax tree and `MyCollector`

`swc_ecma_parser`/`swc_ecma_ast` are external crates.  The tree is modelled
by the fragment the visitor can observe: string literals, object literals
with their properties, arrays, and an opaque `other` for every expression
kind without key-value descendants.  `get_params_swc` takes the parsed
module directly (the parse itself ends in `.unwrap()`, so a parse failure
panics the worker thread and is outside the model). -/

mutual

/-- An ECMAScript expression as far as `MyCollector` can observe it. -/
inductive JExpr where
  /-- `Expr::Lit(Lit::Str(_))` with its cooked value. -/
  | str : String → JExpr
  /-- An object literal with its property list. -/
  | object : JProps → JExpr
  /-- An array literal with its element list. -/
  | array : JExprs → JExpr
  /-- Any other expression with no key-value property beneath it. -/
  | other : JExpr

inductive JExprs where
  | nil : JExprs
  | cons : JExpr → JExprs → JExprs

inductive JProps where
  | nil : JProps
  | cons : JProp → JProps → JProps

/-- An object property. -/
inductive JProp where
  /-- `Prop::KeyValue(KeyValueProp { key, value })`. -/
  | kv : JKey → JExpr → JProp
  /-- Other property kinds (shorthand, methods, spread, ...). -/
  | other : JProp

/-- A property name. -/
inductive JKey where
  /-- `PropName::Str` with its raw source text including the quotes
  (`s.raw.as_deref()`). -/
  | strKey : Option String → JKey
  /-- `PropName::Computed` with the inner expression. -/
  | computed : JExpr → JKey
  /-- Identifier / numeric property names. -/
  | other : JKey

end

/-- `struct MyCollector` (`done: i32`). -/
structure MyCollector where
  params : Bool
  name : String
  text : String
  done : Int

/-- `MyCollector::default()`. -/
def MyCollector.default : MyCollector :=
  { params := false, name := "", text := "", done := 0 }

mutual

/-- `visit_key_value_prop`, followed by the default traversal of the node's
children (key first, then value); other properties only have their
children visited, which record nothing. -/
def visitProp (c : MyCollector) : JProp → MyCollector
  | .kv k v =>
    if c.done == 2 then c
    else
      let c1 :=
        match k with
        | .strKey raw =>
          if c.params then
            let ca :=
              if raw = some "\"name\"" then
                match v with
                | .str ss => { c with name := ss, done := c.done + 1 }
                | _ => c
              else c
            if raw = some "\"text\"" then
              match v with
              | .str ss => { ca with text := ss, done := ca.done + 1 }
              | _ => ca
            else ca
          else if raw = some "\"params\"" then { c with params := true }
          else c
        | _ => c
      visitExpr (visitKey c1 k) v
  | .other => c

/-- Default traversal of a property name (computed keys contain an
expression). -/
def visitKey (c : MyCollector) : JKey → MyCollector
  | .computed e => visitExpr c e
  | _ => c

/-- Default traversal of an expression. -/
def visitExpr (c : MyCollector) : JExpr → MyCollector
  | .object ps => visitProps c ps
  | .array es => visitExprs c es
  | _ => c

def visitProps (c : MyCollector) : JProps → MyCollector
  | .nil => c
  | .cons p ps => visitProps (visitProp c p) ps

def visitExprs (c : MyCollector) : JExprs → MyCollector
  | .nil => c
  | .cons e es => visitExprs (visitExpr c e) es

end

/-- A parsed typescript module, reduced to the expressions its statements
contain, in source order. -/
def Module := List JExpr

/-- `module.visit_with(&mut visitor)`. -/
def visitModule (c : MyCollector) (m : Module) : MyCollector :=
  m.foldl visitExpr c

/-- `fn get_params_swc<P>(filepath) -> Result<Option<Params>, Error>` on the
parsed module: run the visitor; no descriptor unless the `params` state was
entered and two fields were recorded; otherwise build `Params` from the
collector with `..Default::default()`. -/
def get_params_swc (m : Module) : Except Error (Option Params) :=
  let v := visitModule MyCollector.default m
  if !v.params || v.done < 2 then .ok none
  else .ok (some { Params.default with name := v.name, text := v.text })

mutual

/-- Whether some key-value property anywhere in the expression has a
string key with raw text `raw` (hypothesis vocabulary for the theorems). -/
def hasKeyRawExpr (raw : String) : JExpr → Bool
  | .object ps => hasKeyRawProps raw ps
  | .array es => hasKeyRawExprs raw es
  | _ => false

def hasKeyRawExprs (raw : String) : JExprs → Bool
  | .nil => false
  | .cons e es => hasKeyRawExpr raw e || hasKeyRawExprs raw es

def hasKeyRawProps (raw : String) : JProps → Bool
  | .nil => false
  | .cons p ps => hasKeyRawProp raw p || hasKeyRawProps raw ps

def hasKeyRawProp (raw : String) : JProp → Bool
  | .kv k v => hasKeyRawKey raw k || hasKeyRawExpr raw v
  | .other => false

def hasKeyRawKey (raw : String) : JKey → Bool
  | .strKey r => r = some raw
  | .computed e => hasKeyRawExpr raw e
  | .other => false

end

/-- Whether some key-value property in the module has raw key text `raw`. -/
def hasKeyRawModule (raw : String) (m : Module) : Bool :=
  m.any (hasKeyRawExpr raw)

/-! ## Aggregation and output (the tail of `main`)

The worker pool sends one `Result<Option<(Tag, String)>, Error>` per file
over the channel; `rs` below is the list of results in the order the
single collecting thread receives them.  `Tag` (the HMAC output) is
modelled as its byte list. -/

/-- `data_encoding::HEXLOWER.encode`: lowercase hexadecimal of a byte
sequence. -/
def hexLower (bytes : List Nat) : String :=
  String.mk (bytes.foldr
    (fun b acc =>
      "0123456789abcdef".data.getD (b / 16 % 16) '0' ::
      "0123456789abcdef".data.getD (b % 16) '0' :: acc) [])

/-- Strict lexicographic order on character lists by code point; for valid
UTF-8 this coincides with Rust's lexicographic byte order on `str`. -/
def strLtB : List Char → List Char → Bool
  | [], [] => false
  | [], _ :: _ => true
  | _ :: _, [] => false
  | a :: as, b :: bs =>
    if a.toNat < b.toNat then true
    else if b.toNat < a.toNat then false
    else strLtB as bs

/-- Rust `Ord` on `String` (lexicographic byte order), as a strict `<`. -/
def strLt (a b : String) : Bool := strLtB a.data b.data

/-- `BTreeMap::insert` on a strictly-sorted association list (`BTreeMap`
iterates keys in `Ord` order; inserting an existing key replaces its
value). -/
def btreeInsert : List (String × String) → String → String → List (String × String)
  | [], k, v => [(k, v)]
  | (k', v') :: ms, k, v =>
    if strLt k k' then (k, v) :: (k', v') :: ms
    else if strLt k' k then (k', v') :: btreeInsert ms k v
    else (k, v) :: ms

/-- The `for t in rx.iter()` loop: `t?` aborts on the first error, a `Some`
result is hex-encoded and inserted into the `BTreeMap`. -/
def collectGo : List (Except Error (Option (List Nat × String))) →
    List (String × String) → Except Error (List (String × String))
  | [], acc => .ok acc
  | .error e :: _, _ => .error e
  | .ok none :: rest, acc => collectGo rest acc
  | .ok (some (sha, name)) :: rest, acc =>
    collectGo rest (btreeInsert acc name (hexLower sha))

/-- The collection phase of `main`, starting from the empty map. -/
def mainCollect (rs : List (Except Error (Option (List Nat × String)))) :
    Except Error (List (String × String)) :=
  collectGo rs []

/-- One serialized map entry `"name": "digest"` with serde_json string
escaping. -/
def escJsonChar (c : Char) : List Char :=
  if c = '"' then ['\\', '"']
  else if c = '\\' then ['\\', '\\']
  else if c = '\x08' then ['\\', 'b']
  else if c = '\x0c' then ['\\', 'f']
  else if c = '\n' then ['\\', 'n']
  else if c = '\r' then ['\\', 'r']
  else if c = '\t' then ['\\', 't']
  else if c.toNat < 0x20 then
    ['\\', 'u', '0', '0',
     "0123456789abcdef".data.getD (c.toNat / 16 % 16) '0',
     "0123456789abcdef".data.getD (c.toNat % 16) '0']
  else [c]

def renderEntry (e : String × String) : List Char :=
  '"' :: (e.1.data.foldr (fun c acc => escJsonChar c ++ acc) []) ++
    ('"' :: ':' :: ' ' :: '"' ::
      (e.2.data.foldr (fun c acc => escJsonChar c ++ acc) []) ++ ['"'])

/-- `serde_json::ser::PrettyFormatter::with_indent(b"\t")` applied to the
map: `{}` when empty, otherwise each entry on its own tab-indented line. -/
def serializePretty (ms : List (String × String)) : List Char :=
  match ms with
  | [] => ['\x7b', '\x7d']
  | _ =>
    '\x7b' :: '\n' :: '\t' ::
      (joinAll (List.intersperse [',', '\n', '\t'] (ms.map renderEntry)) ++
        ['\n', '\x7d'])

/-- The tail of `main`: drain the channel; the first propagated error
returns from `main` before `File::create`, so nothing is written (`none`);
otherwise the serialized map is written once, in full (`some`). -/
def mainOutput (rs : List (Except Error (Option (List Nat × String)))) :
    Option (List Char) :=
  match mainCollect rs with
  | .error _ => none
  | .ok sigs => some (serializePretty sigs)

/-! ## Order facts and aggregation lemmas -/

theorem char_eq_of_toNat_eq {a b : Char} (h : a.toNat = b.toNat) : a = b := by
  rcases a with ⟨⟨⟨av, hav⟩⟩, ha⟩
  rcases b with ⟨⟨⟨bv, hbv⟩⟩, hb⟩
  simp only [Char.toNat, UInt32.toNat] at h
  subst h
  rfl

theorem strLtB_asymm_eq : ∀ {a b : List Char},
    strLtB a b = false → strLtB b a = false → a = b := by
  intro a
  induction a with
  | nil =>
    intro b h1 _
    cases b with
    | nil => rfl
    | cons b0 bs => simp [strLtB] at h1
  | cons a0 as ih =>
    intro b h1 h2
    cases b with
    | nil => simp [strLtB] at h2
    | cons b0 bs =>
      simp only [strLtB] at h1 h2
      by_cases hab : a0.toNat < b0.toNat
      · rw [if_pos hab] at h1; exact absurd h1 (by simp)
      · by_cases hba : b0.toNat < a0.toNat
        · rw [if_neg hab, if_pos hba] at h1
          rw [if_pos hba] at h2; exact absurd h2 (by simp)
        · rw [if_neg hab, if_neg hba] at h1
          rw [if_neg hba, if_neg hab] at h2
          have heq : a0 = b0 := char_eq_of_toNat_eq (by omega)
          rw [heq, ih h1 h2]

theorem strLtB_trans : ∀ {a b c : List Char},
    strLtB a b = true → strLtB b c = true → strLtB a c = true := by
  intro a
  induction a with
  | nil =>
    intro b c h1 h2
    cases b with
    | nil => simp [strLtB] at h1
    | cons b0 bs =>
      cases c with
      | nil => simp [strLtB] at h2
      | cons c0 cs => simp [strLtB]
  | cons a0 as ih =>
    intro b c h1 h2
    cases b with
    | nil => simp [strLtB] at h1
    | cons b0 bs =>
      cases c with
      | nil => simp [strLtB] at h2
      | cons c0 cs =>
        simp only [strLtB] at h1 h2 ⊢
        by_cases hab : a0.toNat < b0.toNat
        · by_cases hbc : b0.toNat < c0.toNat
          · rw [if_pos (by omega)]
          · by_cases hcb : c0.toNat < b0.toNat
            · rw [if_neg hbc, if_pos hcb] at h2; exact absurd h2 (by simp)
            · rw [if_pos (by omega : a0.toNat < c0.toNat)]
        · by_cases hba : b0.toNat < a0.toNat
          · rw [if_neg hab, if_pos hba] at h1; exact absurd h1 (by simp)
          · rw [if_neg hab, if_neg hba] at h1
            by_cases hbc : b0.toNat < c0.toNat
            · rw [if_pos (by omega : a0.toNat < c0.toNat)]
            · by_cases hcb : c0.toNat < b0.toNat
              · rw [if_neg hbc, if_pos hcb] at h2; exact absurd h2 (by simp)
              · rw [if_neg hbc, if_neg hcb] at h2
                rw [if_neg (by omega : ¬a0.toNat < c0.toNat),
                    if_neg (by omega : ¬c0.toNat < a0.toNat)]
                exact ih h1 h2

theorem strLtB_irrefl : ∀ (a : List Char), strLtB a a = false := by
  intro a
  induction a with
  | nil => rfl
  | cons a0 as ih => simp [strLtB, ih]

theorem strLt_asymm_eq {a b : String} (h1 : strLt a b = false)
    (h2 : strLt b a = false) : a = b := by
  rcases a with ⟨ad⟩
  rcases b with ⟨bd⟩
  have h := strLtB_asymm_eq (a := ad) (b := bd) h1 h2
  rw [h]

theorem btreeInsert_mem : ∀ (ms : List (String × String)) (k v : String)
    (a : String × String), a ∈ btreeInsert ms k v → a = (k, v) ∨ a ∈ ms := by
  intro ms
  induction ms with
  | nil =>
    intro k v a h
    simp only [btreeInsert, List.mem_singleton] at h
    exact Or.inl h
  | cons m ms ih =>
    intro k v a h
    obtain ⟨k', v'⟩ := m
    simp only [btreeInsert] at h
    by_cases h1 : strLt k k' = true
    · rw [if_pos h1] at h
      rcases List.mem_cons.mp h with h' | h'
      · exact Or.inl h'
      · exact Or.inr h'
    · rw [if_neg h1] at h
      by_cases h2 : strLt k' k = true
      · rw [if_pos h2] at h
        rcases List.mem_cons.mp h with h' | h'
        · exact Or.inr (List.mem_cons.mpr (Or.inl h'))
        · rcases ih k v a h' with h'' | h''
          · exact Or.inl h''
          · exact Or.inr (List.mem_cons.mpr (Or.inr h''))
      · rw [if_neg h2] at h
        rcases List.mem_cons.mp h with h' | h'
        · exact Or.inl h'
        · exact Or.inr (List.mem_cons.mpr (Or.inr h'))

theorem btreeInsert_sorted : ∀ (ms : List (String × String)) (k v : String),
    List.Pairwise (fun a b => strLt a.1 b.1 = true) ms →
    List.Pairwise (fun a b => strLt a.1 b.1 = true) (btreeInsert ms k v) := by
  intro ms
  induction ms with
  | nil => intro k v _; simp [btreeInsert]
  | cons m ms ih =>
    intro k v h
    obtain ⟨k', v'⟩ := m
    rw [List.pairwise_cons] at h
    obtain ⟨hall, hsorted⟩ := h
    simp only [btreeInsert]
    by_cases h1 : strLt k k' = true
    · rw [if_pos h1]
      refine List.Pairwise.cons ?_ (List.Pairwise.cons hall hsorted)
      intro x hx
      rcases List.mem_cons.mp hx with h' | h'
      · rw [h']; exact h1
      · exact strLtB_trans h1 (hall x h')
    · rw [if_neg h1]
      by_cases h2 : strLt k' k = true
      · rw [if_pos h2]
        refine List.Pairwise.cons ?_ (ih k v hsorted)
        intro x hx
        rcases btreeInsert_mem ms k v x hx with h' | h'
        · rw [h']; exact h2
        · exact hall x h'
      · rw [if_neg h2]
        have hk : k = k' :=
          strLt_asymm_eq (Bool.eq_false_iff.mpr h1) (Bool.eq_false_iff.mpr h2)
        refine List.Pairwise.cons ?_ hsorted
        intro x hx
        rw [hk]
        exact hall x hx

theorem btreeInsert_key_self : ∀ (ms : List (String × String)) (k v : String),
    k ∈ (btreeInsert ms k v).map Prod.fst := by
  intro ms
  induction ms with
  | nil => intro k v; simp [btreeInsert]
  | cons m ms ih =>
    intro k v
    obtain ⟨k', v'⟩ := m
    simp only [btreeInsert]
    by_cases h1 : strLt k k' = true
    · rw [if_pos h1]; simp
    · rw [if_neg h1]
      by_cases h2 : strLt k' k = true
      · rw [if_pos h2]
        simp only [List.map_cons, List.mem_cons]
        exact Or.inr (ih k v)
      · rw [if_neg h2]; simp

theorem btreeInsert_key_mono : ∀ (ms : List (String × String)) (k v a : String),
    a ∈ ms.map Prod.fst → a ∈ (btreeInsert ms k v).map Prod.fst := by
  intro ms
  induction ms with
  | nil => intro k v a h; simp at h
  | cons m ms ih =>
    intro k v a h
    obtain ⟨k', v'⟩ := m
    simp only [List.map_cons, List.mem_cons] at h
    simp only [btreeInsert]
    by_cases h1 : strLt k k' = true
    · rw [if_pos h1]
      simp only [List.map_cons, List.mem_cons]
      rcases h with h' | h'
      · exact Or.inr (Or.inl h')
      · exact Or.inr (Or.inr h')
    · rw [if_neg h1]
      by_cases h2 : strLt k' k = true
      · rw [if_pos h2]
        simp only [List.map_cons, List.mem_cons]
        rcases h with h' | h'
        · exact Or.inl h'
        · exact Or.inr (ih k v a h')
      · rw [if_neg h2]
        have hk : k = k' :=
          strLt_asymm_eq (Bool.eq_false_iff.mpr h1) (Bool.eq_false_iff.mpr h2)
        simp only [List.map_cons, List.mem_cons]
        rcases h with h' | h'
        · exact Or.inl (by rw [h', hk])
        · exact Or.inr h'

theorem collectGo_first_error :
    ∀ (rs1 : List (Except Error (Option (List Nat × String)))) (e : Error)
      (rs2 : List (Except Error (Option (List Nat × String))))
      (acc : List (String × String)),
      (∀ r ∈ rs1, Except.isOk r = true) →
      collectGo (rs1 ++ .error e :: rs2) acc = .error e := by
  intro rs1
  induction rs1 with
  | nil => intro e rs2 acc _; rfl
  | cons r rs1 ih =>
    intro e rs2 acc h
    have hr := h r (List.mem_cons_self r rs1)
    have ht : ∀ x ∈ rs1, Except.isOk x = true :=
      fun x hx => h x (List.mem_cons.mpr (Or.inr hx))
    match r with
    | .error e' => simp [Except.isOk, Except.toBool] at hr
    | .ok none => simpa [collectGo] using ih e rs2 acc ht
    | .ok (some (sha, name)) => simpa [collectGo] using ih e rs2 _ ht

theorem collectGo_sorted :
    ∀ (rs : List (Except Error (Option (List Nat × String))))
      (acc : List (String × String)) (sigs : List (String × String)),
      List.Pairwise (fun a b => strLt a.1 b.1 = true) acc →
      collectGo rs acc = .ok sigs →
      List.Pairwise (fun a b => strLt a.1 b.1 = true) sigs := by
  intro rs
  induction rs with
  | nil =>
    intro acc sigs hs h
    simp only [collectGo, Except.ok.injEq] at h
    rw [← h]; exact hs
  | cons r rs ih =>
    intro acc sigs hs h
    match r with
    | .error e' => simp [collectGo] at h
    | .ok none => exact ih acc sigs hs (by simpa [collectGo] using h)
    | .ok (some (sha, name)) =>
      exact ih _ sigs (btreeInsert_sorted acc name (hexLower sha) hs)
        (by simpa [collectGo] using h)

theorem collectGo_keys :
    ∀ (rs : List (Except Error (Option (List Nat × String))))
      (acc : List (String × String)) (sigs : List (String × String)) (a : String),
      collectGo rs acc = .ok sigs → a ∈ acc.map Prod.fst →
      a ∈ sigs.map Prod.fst := by
  intro rs
  induction rs with
  | nil =>
    intro acc sigs a h ha
    simp only [collectGo, Except.ok.injEq] at h
    rw [← h]; exact ha
  | cons r rs ih =>
    intro acc sigs a h ha
    match r with
    | .error e' => simp [collectGo] at h
    | .ok none => exact ih acc sigs a (by simpa [collectGo] using h) ha
    | .ok (some (sha, name)) =>
      exact ih _ sigs a (by simpa [collectGo] using h)
        (btreeInsert_key_mono acc name (hexLower sha) a ha)

theorem collectGo_key_of_result :
    ∀ (rs : List (Except Error (Option (List Nat × String))))
      (acc : List (String × String)) (sigs : List (String × String))
      (sha : List Nat) (name : String),
      collectGo rs acc = .ok sigs → Except.ok (some (sha, name)) ∈ rs →
      name ∈ sigs.map Prod.fst := by
  intro rs
  induction rs with
  | nil => intro acc sigs sha name _ hm; simp at hm
  | cons r rs ih =>
    intro acc sigs sha name h hm
    rcases List.mem_cons.mp hm with he | ht
    · rw [← he] at h
      exact collectGo_keys rs _ sigs name (by simpa [collectGo] using h)
        (btreeInsert_key_self acc name (hexLower sha))
    · match r with
      | .error e' => simp [collectGo] at h
      | .ok none => exact ih acc sigs sha name (by simpa [collectGo] using h) ht
      | .ok (some (sha', name')) =>
        exact ih _ sigs sha name (by simpa [collectGo] using h) ht

/-- Claim C10: exactly the selector strings `"swc"`, `"SWC"` and `"Swc"`
select the structural (Swc) strategy, every other string selects the
textual (Manual) strategy, and an absent fourth argument defaults to
`"swc"` and hence the structural strategy. -/
theorem strategy_selection_characterization :
    ∀ s : String,
      (Strategy.fromString s = .Swc ↔ (s = "swc" ∨ s = "SWC" ∨ s = "Swc")) ∧
      (Strategy.fromString s = .Manual ↔ ¬(s = "swc" ∨ s = "SWC" ∨ s = "Swc")) ∧
      selectStrategy none = .Swc := by
  intro s
  refine ⟨?_, ?_, by decide⟩ <;> unfold Strategy.fromString <;> split <;>
    simp_all

/-- Claim C5: the first propagated file-level error is returned by the
collection loop of `main` before `File::create` runs, so no output is
produced at all (`mainOutput` is `none`). -/
theorem error_aborts_before_output
    (rs1 rs2 : List (Except Error (Option (List Nat × String)))) (e : Error)
    (h : ∀ r ∈ rs1, Except.isOk r = true) :
    mainCollect (rs1 ++ .error e :: rs2) = .error e ∧
    mainOutput (rs1 ++ .error e :: rs2) = none := by
  have hc : collectGo (rs1 ++ .error e :: rs2) [] = .error e :=
    collectGo_first_error rs1 e rs2 [] h
  refine ⟨hc, ?_⟩
  unfold mainOutput
  rw [show mainCollect (rs1 ++ .error e :: rs2) = .error e from hc]

/-- Witness for claim C5 at a concrete result list containing a
`ParamSerialization` error. -/
theorem error_aborts_before_output_witness :
    mainCollect [Except.ok (some ([7], "x")), Except.error .ParamSerialization,
      Except.ok none] = .error .ParamSerialization ∧
    mainOutput [Except.ok (some ([7], "x")), Except.error .ParamSerialization,
      Except.ok none] = none :=
  error_aborts_before_output [Except.ok (some ([7], "x"))] [Except.ok none]
    .ParamSerialization (by decide)

/-- Claim C6: whatever order results are received in, the collected map's
keys are strictly sorted in lexicographic (byte) order, and the output is
exactly the tab-indented pretty serialization of that map. -/
theorem output_keys_sorted (rs : List (Except Error (Option (List Nat × String))))
    (sigs : List (String × String)) (h : mainCollect rs = .ok sigs) :
    List.Pairwise (fun a b => strLt a b = true) (sigs.map Prod.fst) ∧
    mainOutput rs = some (serializePretty sigs) := by
  constructor
  · have hp := collectGo_sorted rs [] sigs (by simp) h
    exact List.pairwise_map.mpr hp
  · unfold mainOutput
    rw [show mainCollect rs = .ok sigs from h]

/-- Witness for claim C6 at results received in reverse key order. -/
theorem output_keys_sorted_witness :
    List.Pairwise (fun a b => strLt a b = true)
      (([("a", hexLower [0]), ("b", hexLower [1])] :
        List (String × String)).map Prod.fst) ∧
    mainOutput [Except.ok (some ([1], "b")), Except.ok (some ([0], "a"))] =
      some (serializePretty [("a", hexLower [0]), ("b", hexLower [1])]) :=
  output_keys_sorted [Except.ok (some ([1], "b")), Except.ok (some ([0], "a"))]
    [("a", hexLower [0]), ("b", hexLower [1])] rfl

/-- Claim C8: a name delivered by at least one successful result occurs
exactly once among the output keys, however many results share it. -/
theorem name_collision_single_entry
    (rs : List (Except Error (Option (List Nat × String))))
    (sigs : List (String × String)) (sha : List Nat) (name : String)
    (h1 : mainCollect rs = .ok sigs)
    (h2 : Except.ok (some (sha, name)) ∈ rs) :
    (sigs.map Prod.fst).count name = 1 := by
  have hsort := collectGo_sorted rs [] sigs (by simp) h1
  have hmem := collectGo_key_of_result rs [] sigs sha name h1 h2
  have hp : List.Pairwise (fun a b => strLt a b = true) (sigs.map Prod.fst) :=
    List.pairwise_map.mpr hsort
  have hnd : (sigs.map Prod.fst).Nodup := by
    refine hp.imp ?_
    intro a b hab heq
    rw [heq] at hab
    rw [show strLt b b = strLtB b.data b.data from rfl, strLtB_irrefl] at hab
    exact absurd hab (by simp)
  exact List.count_eq_one_of_mem hnd hmem

/-- Witness for claim C8: two files yielding the same name `"a"`. -/
theorem name_collision_single_entry_witness :
    ((([("a", hexLower [2])] : List (String × String))).map Prod.fst).count "a" = 1 :=
  name_collision_single_entry
    [Except.ok (some ([1], "a")), Except.ok (some ([2], "a"))]
    [("a", hexLower [2])] [1] "a" rfl (by simp)

/-! ## The textual scanner: closing-delimiter characterization -/

/-- The closing-delimiter literal as the claim words it: `k + 1` spaces
followed by a single brace (the code actually produces `k` spaces). -/
def claimClosingDelim (k : Nat) : List Char :=
  List.replicate (k + 1) ' ' ++ ['\x7d']

/-- Accumulate lines verbatim up to and including the first line starting
with the delimiter `d` (the spec's description of the accumulation). -/
def takeToDelim (d : List Char) : List (List Char) → List (List Char)
  | [] => []
  | l :: ls => if List.isPrefixOf d l then [l] else l :: takeToDelim d ls

theorem findParamsGo_skip :
    ∀ (pre rest : List (List Char)) (acc : List (List Char)),
      (∀ l ∈ pre, isParamsLine l = false) →
      findParamsGo (pre ++ rest) none acc = findParamsGo rest none acc := by
  intro pre
  induction pre with
  | nil => intro rest acc _; rfl
  | cons l pre ih =>
    intro rest acc h
    have hl := h l (List.mem_cons_self l pre)
    have ht : ∀ x ∈ pre, isParamsLine x = false :=
      fun x hx => h x (List.mem_cons.mpr (Or.inr hx))
    rw [List.cons_append]
    show (if isParamsLine l = true then
        findParamsGo (pre ++ rest) (some (closingDelim (leadingWsCount l)))
          (acc ++ [['\x7b']])
      else findParamsGo (pre ++ rest) none acc) = findParamsGo rest none acc
    rw [if_neg (by simp [hl])]
    exact ih rest acc ht

theorem findParamsGo_accum :
    ∀ (post : List (List Char)) (d : List Char) (acc : List (List Char)),
      (∀ l ∈ post.takeWhile (fun l => !(List.isPrefixOf d l)),
        isParamsLine l = false) →
      findParamsGo post (some d) acc = acc ++ takeToDelim d post := by
  intro post
  induction post with
  | nil => intro d acc _; simp [findParamsGo, takeToDelim]
  | cons l ls ih =>
    intro d acc h
    by_cases hd : List.isPrefixOf d l = true
    · show (if List.isPrefixOf d l = true then acc ++ [l]
        else if isParamsLine l = true then
          findParamsGo ls (some (closingDelim (leadingWsCount l)))
            (acc ++ [l, ['\x7b']])
        else findParamsGo ls (some d) (acc ++ [l])) =
        acc ++ takeToDelim d (l :: ls)
      rw [if_pos hd]
      unfold takeToDelim
      rw [if_pos hd]
    · have hl : isParamsLine l = false := by
        apply h
        rw [List.takeWhile_cons, if_pos (by simp [hd])]
        exact List.mem_cons_self _ _
      have ht : ∀ x ∈ ls.takeWhile (fun l => !(List.isPrefixOf d l)),
          isParamsLine x = false := by
        intro x hx
        apply h
        rw [List.takeWhile_cons, if_pos (by simp [hd])]
        exact List.mem_cons.mpr (Or.inr hx)
      show (if List.isPrefixOf d l = true then acc ++ [l]
        else if isParamsLine l = true then
          findParamsGo ls (some (closingDelim (leadingWsCount l)))
            (acc ++ [l, ['\x7b']])
        else findParamsGo ls (some d) (acc ++ [l])) =
        acc ++ takeToDelim d (l :: ls)
      rw [if_neg (by simp [hd]), if_neg (by simp [hl])]
      unfold takeToDelim
      rw [if_neg (by simp [hd])]
      rw [ih d (acc ++ [l]) ht]
      simp

/-- Claim C3 counterexample: for a `"params": {` line with one leading
space the code's delimiter is one space and a brace, not two spaces and a
brace as the claim computes; the scan stops at a line the claim's
delimiter does not match, so the accumulated fragment differs from the
claim's prediction. -/
theorem delim_literal_cex :
    find_params ("ConcreteRequest\n \"params\": \x7b\n \x7d\n junk\n".data) =
      some ("\x7b \x7d".data) ∧
    leadingWsCount (" \"params\": \x7b".data) = 1 ∧
    claimClosingDelim 1 = "  \x7d".data ∧
    find_params ("ConcreteRequest\n \"params\": \x7b\n \x7d\n junk\n".data) ≠
      some (joinAll (['\x7b'] ::
        takeToDelim (claimClosingDelim 1) [" \x7d".data, " junk".data])) :=
  ⟨rfl, rfl, rfl, by decide⟩

/-- Claim C3 amended: the computed delimiter is `k` spaces (the leading
whitespace count of the params line) followed by a single brace, and, as
long as no further `"params": {` line occurs before the stop line,
accumulation stops, inclusive, at the first later line starting with that
delimiter. -/
theorem scan_stops_at_code_delim (pre post : List (List Char)) (pl : List Char)
    (hpre : ∀ l ∈ pre, isParamsLine l = false)
    (hpl : isParamsLine pl = true)
    (hpost : ∀ l ∈ post.takeWhile
        (fun l => !(List.isPrefixOf (closingDelim (leadingWsCount pl)) l)),
      isParamsLine l = false) :
    closingDelim (leadingWsCount pl) =
      List.replicate (leadingWsCount pl) ' ' ++ ['\x7d'] ∧
    findParamsGo (pre ++ pl :: post) none [] =
      ['\x7b'] :: takeToDelim (closingDelim (leadingWsCount pl)) post := by
  constructor
  · simp [closingDelim, padLeftTo]
  · rw [findParamsGo_skip pre (pl :: post) [] hpre]
    show (if isParamsLine pl = true then
        findParamsGo post (some (closingDelim (leadingWsCount pl)))
          ([] ++ [['\x7b']])
      else findParamsGo post none []) = _
    rw [if_pos hpl]
    rw [findParamsGo_accum post (closingDelim (leadingWsCount pl)) _ hpost]
    simp

/-- Witness for the amended claim C3 at the counterexample's lines. -/
theorem scan_stops_at_code_delim_witness :
    closingDelim (leadingWsCount (" \"params\": \x7b".data)) =
      List.replicate (leadingWsCount (" \"params\": \x7b".data)) ' ' ++
        ['\x7d'] ∧
    findParamsGo ([] ++ " \"params\": \x7b".data ::
        [" \x7d".data, " junk".data]) none [] =
      ['\x7b'] :: takeToDelim
        (closingDelim (leadingWsCount (" \"params\": \x7b".data)))
        [" \x7d".data, " junk".data] :=
  scan_stops_at_code_delim [] [" \x7d".data, " junk".data]
    (" \"params\": \x7b".data) (by decide) (by decide) (by decide)

/-- Claim C2 counterexample: content consisting of only the marker (so the
params block is missing) makes the textual extractor return
`Err(ParamSerialization)`, not a successful "no descriptor". -/
theorem textual_error_not_none_cex :
    get_params CONCRETE_REQUEST = .error .ParamSerialization ∧
    get_params CONCRETE_REQUEST ≠ .ok none := by
  refine ⟨rfl, ?_⟩
  intro h
  rw [show get_params CONCRETE_REQUEST = .error .ParamSerialization from rfl]
    at h
  exact Except.noConfusion h

/-- Claim C2 amended: when the marker is present (so `find_params` yields a
fragment), any fragment that fails to deserialize — covering a missing
params block (empty fragment), a missing required field, and malformed
JSON — makes the textual extractor return `Err(ParamSerialization)`; a
successful "no descriptor" happens only when the marker is absent. -/
theorem textual_error_on_bad_fragment (c raw : List Char)
    (h1 : find_params c = some raw) (h2 : serdeFromStr raw = none) :
    get_params c = .error .ParamSerialization := by
  unfold get_params
  rw [h1]
  show (match serdeFromStr raw with
    | some p => Except.ok (some p)
    | none => Except.error Error.ParamSerialization) =
    Except.error Error.ParamSerialization
  rw [h2]

/-- Witness for the amended claim C2: marker present, params block present
but required fields missing (fragment `{}`). -/
theorem textual_error_on_bad_fragment_witness :
    get_params ("ConcreteRequest\n\"params\": \x7b\n\x7d\n".data) =
      .error .ParamSerialization :=
  textual_error_on_bad_fragment ("ConcreteRequest\n\"params\": \x7b\n\x7d\n".data)
    ("\x7b\x7d".data) rfl rfl

/-! ## Visitor invariants -/

mutual

theorem noParamsKey_visitExpr (c : MyCollector) (e : JExpr)
    (hc : c.params = false) (he : hasKeyRawExpr "\"params\"" e = false) :
    visitExpr c e = c := by
  match e with
  | .str s => rfl
  | .other => rfl
  | .object ps =>
    exact noParamsKey_visitProps c ps hc (by simpa [hasKeyRawExpr] using he)
  | .array es =>
    exact noParamsKey_visitExprs c es hc (by simpa [hasKeyRawExpr] using he)

theorem noParamsKey_visitExprs (c : MyCollector) (es : JExprs)
    (hc : c.params = false) (he : hasKeyRawExprs "\"params\"" es = false) :
    visitExprs c es = c := by
  match es with
  | .nil => rfl
  | .cons e es =>
    simp only [hasKeyRawExprs, Bool.or_eq_false_iff] at he
    have h1 := noParamsKey_visitExpr c e hc he.1
    show visitExprs (visitExpr c e) es = c
    rw [h1]
    exact noParamsKey_visitExprs c es hc he.2

theorem noParamsKey_visitProps (c : MyCollector) (ps : JProps)
    (hc : c.params = false) (hp : hasKeyRawProps "\"params\"" ps = false) :
    visitProps c ps = c := by
  match ps with
  | .nil => rfl
  | .cons p ps =>
    simp only [hasKeyRawProps, Bool.or_eq_false_iff] at hp
    have h1 := noParamsKey_visitProp c p hc hp.1
    show visitProps (visitProp c p) ps = c
    rw [h1]
    exact noParamsKey_visitProps c ps hc hp.2

theorem noParamsKey_visitProp (c : MyCollector) (p : JProp)
    (hc : c.params = false) (hp : hasKeyRawProp "\"params\"" p = false) :
    visitProp c p = c := by
  cases p with
  | other => rfl
  | kv k v =>
    simp only [hasKeyRawProp, Bool.or_eq_false_iff] at hp
    obtain ⟨hk, hv⟩ := hp
    by_cases hd : (c.done == 2) = true
    · simp only [visitProp, if_pos hd]
    · cases k with
      | strKey raw =>
        have hraw : ¬(raw = some "\"params\"") := by
          simp only [hasKeyRawKey, decide_eq_false_iff_not] at hk
          exact hk
        simp only [visitProp, if_neg hd, hc, Bool.false_eq_true, if_false,
          if_neg hraw, visitKey]
        exact noParamsKey_visitExpr c v hc hv
      | computed ke =>
        simp only [visitProp, if_neg hd, visitKey]
        rw [noParamsKey_visitExpr c ke hc (by simpa [hasKeyRawKey] using hk)]
        exact noParamsKey_visitExpr c v hc hv
      | other =>
        simp only [visitProp, if_neg hd, visitKey]
        exact noParamsKey_visitExpr c v hc hv

end

theorem noParamsKey_visitModule (m : Module)
    (hm : hasKeyRawModule "\"params\"" m = false) :
    ∀ (c : MyCollector), c.params = false → visitModule c m = c := by
  induction m with
  | nil => intro c _; rfl
  | cons e m ih =>
    intro c hc
    simp only [hasKeyRawModule, List.any_cons, Bool.or_eq_false_iff] at hm
    show visitModule (visitExpr c e) m = c
    rw [noParamsKey_visitExpr c e hc hm.1]
    exact ih (by simp [hasKeyRawModule, hm.2]) c hc

/-- Claim C9: a file whose content lacks the `ConcreteRequest` marker and
whose parse (`m`) contains no `"params"`-keyed property produces a
successful "no descriptor" outcome from both extractors. -/
theorem both_none_on_unrelated_content (content : List Char) (m : Module)
    (h1 : findSuffix CONCRETE_REQUEST content = none)
    (h2 : hasKeyRawModule "\"params\"" m = false) :
    get_params content = .ok none ∧ get_params_swc m = .ok none := by
  constructor
  · unfold get_params find_params
    rw [h1]
  · unfold get_params_swc
    rw [noParamsKey_visitModule m h2 MyCollector.default rfl]
    rfl

/-- Witness for claim C9 at a small unrelated file and module. -/
theorem both_none_on_unrelated_content_witness :
    get_params "hello world".data = .ok none ∧
    get_params_swc
      [JExpr.object (.cons (.kv (.strKey (some "\"a\"")) .other) .nil)] =
      .ok none :=
  both_none_on_unrelated_content "hello world".data
    [JExpr.object (.cons (.kv (.strKey (some "\"a\"")) .other) .nil)]
    rfl rfl

mutual

theorem doneLe_visitExpr (c : MyCollector) (e : JExpr) (h : c.done ≤ 2) :
    (visitExpr c e).done ≤ 2 := by
  cases e with
  | str s => exact h
  | other => exact h
  | object ps => exact doneLe_visitProps c ps h
  | array es => exact doneLe_visitExprs c es h

theorem doneLe_visitExprs (c : MyCollector) (es : JExprs) (h : c.done ≤ 2) :
    (visitExprs c es).done ≤ 2 := by
  cases es with
  | nil => exact h
  | cons e es =>
    exact doneLe_visitExprs (visitExpr c e) es (doneLe_visitExpr c e h)

theorem doneLe_visitProps (c : MyCollector) (ps : JProps) (h : c.done ≤ 2) :
    (visitProps c ps).done ≤ 2 := by
  cases ps with
  | nil => exact h
  | cons p ps =>
    exact doneLe_visitProps (visitProp c p) ps (doneLe_visitProp c p h)

theorem doneLe_visitKey (c : MyCollector) (k : JKey) (h : c.done ≤ 2) :
    (visitKey c k).done ≤ 2 := by
  cases k with
  | strKey raw => exact h
  | computed ke => exact doneLe_visitExpr c ke h
  | other => exact h

theorem doneLe_visitProp (c : MyCollector) (p : JProp) (h : c.done ≤ 2) :
    (visitProp c p).done ≤ 2 := by
  cases p with
  | other => exact h
  | kv k v =>
    by_cases hd : (c.done == 2) = true
    · simp only [visitProp, if_pos hd]; exact h
    · have hdne : c.done ≠ 2 := by simpa using hd
      have h1 : c.done ≤ 1 := by omega
      simp only [visitProp, if_neg hd]
      apply doneLe_visitExpr
      apply doneLe_visitKey
      cases k with
      | computed ke => exact h
      | other => exact h
      | strKey raw =>
        by_cases hpar : c.params = true
        · simp only [hpar, if_true]
          by_cases hn : raw = some "\"name\""
          · have htx : ¬raw = some "\"text\"" := by
              rw [hn]; simp only [Option.some.injEq]; decide
            cases v with
            | str ss => simp only [if_pos hn, if_neg htx]; simp; omega
            | object ps => simp only [if_pos hn, if_neg htx]; exact h
            | array es => simp only [if_pos hn, if_neg htx]; exact h
            | other => simp only [if_pos hn, if_neg htx]; exact h
          · by_cases htx : raw = some "\"text\""
            · cases v with
              | str ss =>
                simp only [if_neg hn, if_pos htx]
                omega
              | object ps => simp only [if_neg hn, if_pos htx]; exact h
              | array es => simp only [if_neg hn, if_pos htx]; exact h
              | other => simp only [if_neg hn, if_pos htx]; exact h
            · simp only [if_neg hn, if_neg htx]; exact h
        · simp only [hpar]
          by_cases hpk : raw = some "\"params\""
          · simp only [if_pos hpk]
            simpa using h
          · simp only [if_neg hpk]
            simp only [Bool.false_eq_true, if_false]
            exact h

end

theorem doneLe_visitModule : ∀ (m : Module) (c : MyCollector), c.done ≤ 2 →
    (visitModule c m).done ≤ 2 := by
  intro m
  induction m with
  | nil => intro c h; exact h
  | cons e m ih => intro c h; exact ih _ (doneLe_visitExpr c e h)

/-- A module whose params object holds two string-valued `"name"` entries
and no `"text"` entry. -/
def c4CexModule : Module :=
  [JExpr.object (.cons (.kv (.strKey (some "\"params\""))
    (.object (.cons (.kv (.strKey (some "\"name\"")) (.str "A"))
      (.cons (.kv (.strKey (some "\"name\"")) (.str "B")) .nil)))) .nil)]

/-- Claim C4 counterexample: the module has no `"text"`-keyed entry at all,
yet the structural extractor returns a descriptor — built from the LAST
`"name"` occurrence (`"B"`, not the first `"A"`) and an empty text. -/
theorem swc_two_names_cex :
    hasKeyRawModule "\"text\"" c4CexModule = false ∧
    get_params_swc c4CexModule =
      .ok (some { Params.default with name := "B" }) :=
  ⟨rfl, rfl⟩

/-- Claim C4 amended: each matching `"name"`/`"text"` string entry after
entering the params state overwrites the field and increments a shared
two-entry budget (`done` never exceeds 2); "no descriptor" is reported
exactly when the params state is never entered or fewer than two entries
in total were recorded — so a descriptor may be returned with one of the
two fields never seen. -/
theorem swc_none_iff_under_two (m : Module) :
    (visitModule MyCollector.default m).done ≤ 2 ∧
    (get_params_swc m = .ok none ↔
      ((visitModule MyCollector.default m).params = false ∨
        (visitModule MyCollector.default m).done < 2)) := by
  refine ⟨doneLe_visitModule m MyCollector.default (by norm_num [MyCollector.default]), ?_⟩
  unfold get_params_swc
  by_cases hcond : (!(visitModule MyCollector.default m).params ||
      decide ((visitModule MyCollector.default m).done < 2)) = true
  · rw [if_pos hcond]
    simp only [true_iff]
    simpa using hcond
  · rw [if_neg hcond]
    constructor
    · intro h
      exact absurd (Except.ok.inj h) (by simp)
    · intro h
      exact absurd (by simpa using h) hcond

/-! ## Refinement of the two extractors on a well-formed descriptor file

The claim's "well-formed, consistently-indented input file containing a
descriptor" is formalized as the canonical relay-style generated file
`renderFile name text cacheID` (marker in the type annotation, two-space
nesting, params fields in the generator's sorted order), together with the
syntax tree `renderModule name text cacheID` that the typescript parser
produces for it.  The embedded strings may be any strings whose characters
need no JSON escaping (`strSafe`). -/

/-- Characters embeddable in a JSON string literal without escaping (also
excludes control characters, hence newlines). -/
def strSafe (s : String) : Prop :=
  ∀ ch ∈ s.data, ch ≠ '"' ∧ ch ≠ '\\' ∧ 0x20 ≤ ch.toNat

instance (s : String) : Decidable (strSafe s) := by
  unfold strSafe
  infer_instance

theorem parseStringBody_safe : ∀ (l : List Char),
    (∀ ch ∈ l, ch ≠ '"' ∧ ch ≠ '\\' ∧ 0x20 ≤ ch.toNat) →
    ∀ r, parseStringBody (l ++ '"' :: r) = some (l, r) := by
  intro l
  induction l with
  | nil =>
    intro _ r
    rfl
  | cons a l ih =>
    intro h r
    have ha := h a (List.mem_cons_self a l)
    rw [List.cons_append]
    simp only [parseStringBody]
    rw [if_neg ha.1, if_neg ha.2.1, if_neg (by omega : ¬a.toNat < 0x20)]
    rw [ih (fun ch hch => h ch (List.mem_cons.mpr (Or.inr hch))) r]

theorem trimRightCh_last_non_ws : ∀ (xs : List Char) (a : Char),
    isRustWs a = false → trimRightCh (xs ++ [a]) = xs ++ [a] := by
  intro xs a ha
  induction xs with
  | nil => simp [trimRightCh, ha]
  | cons x xs ih =>
    show trimRightCh (x :: (xs ++ [a])) = x :: (xs ++ [a])
    show (match trimRightCh (xs ++ [a]) with
      | [] => if isRustWs x then [] else [x]
      | r' => x :: r') = x :: (xs ++ [a])
    rw [ih]
    cases hxs : xs ++ [a] with
    | nil => exact absurd hxs (by simp)
    | cons y ys => rfl

theorem splitNl_append : ∀ (l r : List Char), '\n' ∉ l →
    splitNl (l ++ '\n' :: r) = l :: splitNl r := by
  intro l
  induction l with
  | nil => intro r _; simp [splitNl]
  | cons c l ih =>
    intro r h
    have hc : ¬(c = '\n') := fun hh => h (by rw [hh]; exact List.mem_cons_self _ _)
    have ht : '\n' ∉ l := fun hh => h (List.mem_cons.mpr (Or.inr hh))
    show splitNl (c :: (l ++ '\n' :: r)) = (c :: l) :: splitNl r
    show (if c = '\n' then [] :: splitNl (l ++ '\n' :: r)
      else
        match splitNl (l ++ '\n' :: r) with
        | [] => [[c]]
        | l' :: ls => (c :: l') :: ls) = (c :: l) :: splitNl r
    rw [if_neg hc, ih r ht]

/-- `unlines` inverts `rustLines` for newline-free, `'\r'`-free lines. -/
def unlines (ls : List (List Char)) : List Char :=
  joinAll (ls.map (· ++ ['\n']))

theorem unlines_ne_nil (l : List Char) (ls : List (List Char)) :
    unlines (l :: ls) ≠ [] := by
  show (l ++ ['\n']) ++ unlines ls ≠ []
  simp

theorem getLast?_unlines : ∀ (ls : List (List Char)), ls ≠ [] →
    (unlines ls).getLast? = some '\n' := by
  intro ls
  induction ls with
  | nil => intro h; exact absurd rfl h
  | cons l ls ih =>
    intro _
    show ((l ++ ['\n']) ++ unlines ls).getLast? = some '\n'
    cases hl : ls with
    | nil =>
      show ((l ++ ['\n']) ++ unlines []).getLast? = some '\n'
      show ((l ++ ['\n']) ++ []).getLast? = some '\n'
      rw [List.append_nil, List.getLast?_concat]
    | cons l2 ls2 =>
      rw [List.getLast?_append]
      rw [hl] at ih
      rw [ih (by simp)]
      rfl

theorem splitNl_unlines : ∀ (ls : List (List Char)),
    (∀ l ∈ ls, '\n' ∉ l) → splitNl (unlines ls) = ls ++ [[]] := by
  intro ls
  induction ls with
  | nil => intro _; rfl
  | cons l ls ih =>
    intro h
    show splitNl ((l ++ ['\n']) ++ unlines ls) = (l :: ls) ++ [[]]
    rw [List.append_assoc]
    show splitNl (l ++ '\n' :: unlines ls) = (l :: ls) ++ [[]]
    rw [splitNl_append l _ (h l (List.mem_cons_self l ls))]
    rw [ih (fun x hx => h x (List.mem_cons.mpr (Or.inr hx)))]
    rfl

theorem rustLines_unlines (ls : List (List Char))
    (h : ∀ l ∈ ls, '\n' ∉ l ∧ l.getLast? ≠ some '\r') :
    rustLines (unlines ls) = ls := by
  cases ls with
  | nil => rfl
  | cons l ls =>
    unfold rustLines
    rw [if_neg (unlines_ne_nil l ls)]
    rw [if_pos (getLast?_unlines (l :: ls) (by simp))]
    rw [splitNl_unlines (l :: ls) (fun x hx => (h x hx).1)]
    rw [show (l :: ls) ++ [[]] = (l :: ls) ++ [([] : List Char)] from rfl,
      List.dropLast_concat]
    have : ∀ x ∈ l :: ls, stripCr x = x := by
      intro x hx
      unfold stripCr
      rw [if_neg (h x hx).2]
    calc (l :: ls).map stripCr = (l :: ls).map id := List.map_congr_left this
      _ = l :: ls := List.map_id _

/-- The `"cacheID"` line of the canonical descriptor file. -/
def cacheLine (c : String) : List Char :=
  "    \"cacheID\": \"".data ++ c.data ++ "\",".data

/-- The `"id"` line. -/
def idLine : List Char := "    \"id\": null,".data

/-- The `"metadata"` line. -/
def metaLine : List Char := "    \"metadata\": \x7b\x7d,".data

/-- The `"name"` line. -/
def nameLine (n : String) : List Char :=
  "    \"name\": \"".data ++ n.data ++ "\",".data

/-- The `"operationKind"` line. -/
def opLine : List Char := "    \"operationKind\": \"query\",".data

/-- The `"text"` line (last field: no trailing comma). -/
def textLine (t : String) : List Char :=
  "    \"text\": \"".data ++ t.data ++ "\"".data

/-- The lines of the canonical descriptor file from the marker on. -/
def scanLines (n t c : String) : List (List Char) :=
  [ "ConcreteRequest = \x7b".data,
    "  \"kind\": \"Request\",".data,
    "  \"params\": \x7b".data,
    cacheLine c, idLine, metaLine, nameLine n, opLine, textLine t,
    "  \x7d".data,
    "\x7d;".data ]

/-- A well-formed, consistently-indented generated `.graphql.ts` file with a
single descriptor `(name, text)` (and the given `cacheID`): marker in the
type annotation, two-space nesting, params fields in the generator's
sorted order. -/
def renderFile (n t c : String) : List Char :=
  "const node: ".data ++ unlines (scanLines n t c)

/-- The syntax tree the typescript parser produces for `renderFile` (the
`null` value of `"id"` is a non-string literal, hence `.other`). -/
def renderParamsProps (n t c : String) : JProps :=
  .cons (.kv (.strKey (some "\"cacheID\"")) (.str c))
    (.cons (.kv (.strKey (some "\"id\"")) .other)
      (.cons (.kv (.strKey (some "\"metadata\"")) (.object .nil))
        (.cons (.kv (.strKey (some "\"name\"")) (.str n))
          (.cons (.kv (.strKey (some "\"operationKind\"")) (.str "query"))
            (.cons (.kv (.strKey (some "\"text\"")) (.str t)) .nil)))))

def renderModule (n t c : String) : Module :=
  [.object (.cons (.kv (.strKey (some "\"kind\"")) (.str "Request"))
    (.cons (.kv (.strKey (some "\"params\""))
      (.object (renderParamsProps n t c))) .nil))]

theorem findSuffix_append_of_head_notin (p : Char) (ps : List Char)
    (pre s : List Char) (h : p ∉ pre) :
    findSuffix (p :: ps) (pre ++ s) = findSuffix (p :: ps) s := by
  induction pre with
  | nil => rfl
  | cons c r ih =>
    have hc : ¬(p = c) := fun hh => by
      rw [hh] at h; exact h (List.mem_cons_self c r)
    have hb : (p == c) = false := beq_eq_false_iff_ne.mpr hc
    show (if List.isPrefixOf (p :: ps) (c :: (r ++ s)) = true
      then some (c :: (r ++ s)) else findSuffix (p :: ps) (r ++ s)) =
      findSuffix (p :: ps) s
    rw [if_neg (by simp [List.isPrefixOf, hb])]
    exact ih (fun hh => h (List.mem_cons.mpr (Or.inr hh)))

theorem isPrefixOf_append_left : ∀ (m x : List Char),
    List.isPrefixOf m (m ++ x) = true := by
  intro m x
  induction m with
  | nil => cases x <;> rfl
  | cons a as ih => simp [List.isPrefixOf, ih]

theorem findSuffix_at_head {pat s : List Char}
    (h : List.isPrefixOf pat s = true) : findSuffix pat s = some s := by
  cases s with
  | nil => simp [findSuffix, h]
  | cons c r =>
    show (if List.isPrefixOf pat (c :: r) = true then some (c :: r)
      else findSuffix pat r) = some (c :: r)
    rw [if_pos h]

theorem findSuffix_render (n t c : String) :
    findSuffix CONCRETE_REQUEST (renderFile n t c) =
      some (unlines (scanLines n t c)) :=
  calc findSuffix CONCRETE_REQUEST (renderFile n t c)
      = findSuffix ('C' :: "oncreteRequest".data)
          ("const node: ".data ++ unlines (scanLines n t c)) := rfl
    _ = findSuffix ('C' :: "oncreteRequest".data)
          (unlines (scanLines n t c)) :=
        findSuffix_append_of_head_notin 'C' "oncreteRequest".data
          "const node: ".data _ (by decide)
    _ = some (unlines (scanLines n t c)) :=
        findSuffix_at_head
          (isPrefixOf_append_left ('C' :: "oncreteRequest".data)
            ((" = \x7b".data ++ ['\n']) ++
              unlines (scanLines n t c).tail))

/-- No character of a safe string is a newline. -/
theorem strSafe_no_nl {s : String} (hs : strSafe s) : '\n' ∉ s.data := by
  intro hmem
  exact absurd (hs '\n' hmem).2.2 (by decide)

theorem rustLines_render (n t c : String)
    (hn : strSafe n) (ht : strSafe t) (hc : strSafe c) :
    rustLines (unlines (scanLines n t c)) = scanLines n t c := by
  apply rustLines_unlines
  intro l hl
  simp only [scanLines, List.mem_cons] at hl
  rcases hl with h | h | h | h | h | h | h | h | h | h | h | h
  · rw [h]; exact ⟨by decide, by decide⟩
  · rw [h]; exact ⟨by decide, by decide⟩
  · rw [h]; exact ⟨by decide, by decide⟩
  · rw [h]
    constructor
    · unfold cacheLine
      intro hmem
      rcases List.mem_append.mp hmem with hm | hm
      · rcases List.mem_append.mp hm with hm2 | hm2
        · exact absurd hm2 (by decide)
        · exact strSafe_no_nl hc hm2
      · exact absurd hm (by decide)
    · unfold cacheLine
      rw [List.append_assoc, List.getLast?_append]
      intro hh
      rw [show ((c.data ++ "\",".data).getLast?.or
        ("    \"cacheID\": \"".data.getLast?)) =
          (c.data ++ "\",".data).getLast?.or (some '"') from rfl] at hh
      rw [List.getLast?_append] at hh
      exact absurd hh (by simp [Option.or])
  · rw [h]; exact ⟨by decide, by decide⟩
  · rw [h]; exact ⟨by decide, by decide⟩
  · rw [h]
    constructor
    · unfold nameLine
      intro hmem
      rcases List.mem_append.mp hmem with hm | hm
      · rcases List.mem_append.mp hm with hm2 | hm2
        · exact absurd hm2 (by decide)
        · exact strSafe_no_nl hn hm2
      · exact absurd hm (by decide)
    · unfold nameLine
      rw [List.append_assoc, List.getLast?_append]
      intro hh
      rw [List.getLast?_append] at hh
      exact absurd hh (by simp [Option.or])
  · rw [h]; exact ⟨by decide, by decide⟩
  · rw [h]
    constructor
    · unfold textLine
      intro hmem
      rcases List.mem_append.mp hmem with hm | hm
      · rcases List.mem_append.mp hm with hm2 | hm2
        · exact absurd hm2 (by decide)
        · exact strSafe_no_nl ht hm2
      · exact absurd hm (by decide)
    · unfold textLine
      rw [List.append_assoc, List.getLast?_append]
      intro hh
      rw [List.getLast?_append] at hh
      exact absurd hh (by simp [Option.or])
  · rw [h]; exact ⟨by decide, by decide⟩
  · rw [h]; exact ⟨by decide, by decide⟩
  · exact absurd h (List.not_mem_nil l)

theorem isPrefixOf_delim_sp (rest : List Char) :
    List.isPrefixOf "  \x7d".data (' ' :: ' ' :: ' ' :: rest) = false := by
  simp [List.isPrefixOf]

theorem params_prefix_false (c2 : Char) (rest : List Char)
    (hc2 : ('p' == c2) = false) :
    List.isPrefixOf PARAMS_PAT ('"' :: c2 :: rest) = false := by
  show List.isPrefixOf ('"' :: 'p' :: "arams\": \x7b".data)
    ('"' :: c2 :: rest) = false
  simp [List.isPrefixOf, hc2]

theorem trimRightCh_ends_qc (Y : List Char) :
    trimRightCh (Y ++ "\",".data) = Y ++ "\",".data := by
  rw [show Y ++ "\",".data = (Y ++ ['"']) ++ [','] from
    (List.append_assoc Y ['"'] [',']).symm]
  exact trimRightCh_last_non_ws (Y ++ ['"']) ',' (by decide)

theorem isParamsLine_cacheLine (c : String) :
    isParamsLine (cacheLine c) = false := by
  unfold isParamsLine trimCh
  rw [show trimLeftCh (cacheLine c) =
    ("\"cacheID\": \"".data ++ c.data) ++ "\",".data from rfl]
  rw [trimRightCh_ends_qc (("\"cacheID\": \"".data ++ c.data))]
  exact params_prefix_false 'c' _ (by decide)

theorem isParamsLine_nameLine (n : String) :
    isParamsLine (nameLine n) = false := by
  unfold isParamsLine trimCh
  rw [show trimLeftCh (nameLine n) =
    ("\"name\": \"".data ++ n.data) ++ "\",".data from rfl]
  rw [trimRightCh_ends_qc (("\"name\": \"".data ++ n.data))]
  exact params_prefix_false 'n' _ (by decide)

theorem isParamsLine_textLine (t : String) :
    isParamsLine (textLine t) = false := by
  unfold isParamsLine trimCh
  rw [show trimLeftCh (textLine t) =
    ("\"text\": \"".data ++ t.data) ++ "\"".data from rfl]
  rw [show ("\"text\": \"".data ++ t.data) ++ "\"".data =
    ("\"text\": \"".data ++ t.data) ++ ['"'] from rfl]
  rw [trimRightCh_last_non_ws ("\"text\": \"".data ++ t.data) '"' (by decide)]
  exact params_prefix_false 't' _ (by decide)

/-- The fragment `find_params` assembles from the canonical file: a bare
brace, the six field lines verbatim, and the closing-delimiter line. -/
def rawFragment (n t c : String) : List Char :=
  '\x7b' :: (cacheLine c ++ (idLine ++ (metaLine ++ (nameLine n ++
    (opLine ++ (textLine t ++ ("  \x7d".data ++ [])))))))

theorem find_params_render (n t c : String)
    (hn : strSafe n) (ht : strSafe t) (hc : strSafe c) :
    find_params (renderFile n t c) = some (rawFragment n t c) := by
  have hdc : List.isPrefixOf "  \x7d".data (cacheLine c) = false :=
    isPrefixOf_delim_sp _
  have hdn : List.isPrefixOf "  \x7d".data (nameLine n) = false :=
    isPrefixOf_delim_sp _
  have hdt : List.isPrefixOf "  \x7d".data (textLine t) = false :=
    isPrefixOf_delim_sp _
  have hdi : List.isPrefixOf "  \x7d".data idLine = false := by decide
  have hdm : List.isPrefixOf "  \x7d".data metaLine = false := by decide
  have hdo : List.isPrefixOf "  \x7d".data opLine = false := by decide
  have hdcl : List.isPrefixOf "  \x7d".data ("  \x7d".data) = true := by decide
  unfold find_params
  rw [findSuffix_render]
  show some (joinAll (findParamsGo (rustLines (unlines (scanLines n t c)))
    none [])) = some (rawFragment n t c)
  rw [rustLines_render n t c hn ht hc]
  rw [show scanLines n t c =
    ["ConcreteRequest = \x7b".data, "  \"kind\": \"Request\",".data] ++
      ("  \"params\": \x7b".data ::
        [cacheLine c, idLine, metaLine, nameLine n, opLine, textLine t,
          "  \x7d".data, "\x7d;".data]) from rfl]
  rw [findParamsGo_skip _ _ _ (by decide)]
  show some (joinAll (if isParamsLine ("  \"params\": \x7b".data) = true then
    findParamsGo
      [cacheLine c, idLine, metaLine, nameLine n, opLine, textLine t,
        "  \x7d".data, "\x7d;".data]
      (some (closingDelim (leadingWsCount ("  \"params\": \x7b".data))))
      ([] ++ [['\x7b']])
    else findParamsGo
      [cacheLine c, idLine, metaLine, nameLine n, opLine, textLine t,
        "  \x7d".data, "\x7d;".data] none [])) = some (rawFragment n t c)
  rw [if_pos (by decide)]
  rw [show closingDelim (leadingWsCount ("  \"params\": \x7b".data)) =
    "  \x7d".data from by decide]
  have htw : List.takeWhile (fun l => !(List.isPrefixOf "  \x7d".data l))
      [cacheLine c, idLine, metaLine, nameLine n, opLine, textLine t,
        "  \x7d".data, "\x7d;".data] =
      [cacheLine c, idLine, metaLine, nameLine n, opLine, textLine t] := by
    simp [List.takeWhile_cons, hdc, hdi, hdm, hdn, hdo, hdt, hdcl]
  rw [findParamsGo_accum _ _ _ (by
    intro l hl
    rw [htw] at hl
    rcases List.mem_cons.mp hl with h | hl
    · rw [h]; exact isParamsLine_cacheLine c
    rcases List.mem_cons.mp hl with h | hl
    · rw [h]; decide
    rcases List.mem_cons.mp hl with h | hl
    · rw [h]; decide
    rcases List.mem_cons.mp hl with h | hl
    · rw [h]; exact isParamsLine_nameLine n
    rcases List.mem_cons.mp hl with h | hl
    · rw [h]; decide
    rcases List.mem_cons.mp hl with h | hl
    · rw [h]; exact isParamsLine_textLine t
    exact absurd hl (List.not_mem_nil l))]
  rw [show takeToDelim "  \x7d".data
      [cacheLine c, idLine, metaLine, nameLine n, opLine, textLine t,
        "  \x7d".data, "\x7d;".data] =
      [cacheLine c, idLine, metaLine, nameLine n, opLine, textLine t,
        "  \x7d".data] from by
    simp [takeToDelim, hdc, hdi, hdm, hdn, hdo, hdt, hdcl]]
  rfl

theorem pm_text (t : String) (ht : strSafe t) (f : Nat) :
    parseMembers (f + 2) (textLine t ++ ("  \x7d".data ++ [])) =
      some ([("text".data, Json.str t.data)], []) := by
  show (match (match parseStringBody
        ((t.data ++ "\"".data) ++ ("  \x7d".data ++ [])) with
         | none => none
         | some (sb, r2) => some (Json.str sb, r2)) with
    | none => none
    | some (v, r4) =>
      match skipJsonWs r4 with
      | ',' :: r5 =>
        (match parseMembers (f + 1) r5 with
         | none => none
         | some (ms, r6) => some (("text".data, v) :: ms, r6))
      | '\x7d' :: r5 => some ([("text".data, v)], r5)
      | _ => none) = some ([("text".data, Json.str t.data)], [])
  rw [show (t.data ++ "\"".data) ++ ("  \x7d".data ++ []) =
    t.data ++ '"' :: ("  \x7d".data ++ []) from by rw [List.append_assoc]; rfl]
  rw [parseStringBody_safe t.data ht ("  \x7d".data ++ [])]
  rfl

theorem pm_op (f : Nat) (R : List Char) :
    parseMembers (f + 3) (opLine ++ R) =
      (match parseMembers (f + 2) R with
       | none => none
       | some (ms, r6) =>
         some (("operationKind".data, Json.str "query".data) :: ms, r6)) := rfl

theorem pm_name (n : String) (hn : strSafe n) (f : Nat) (R : List Char) :
    parseMembers (f + 4) (nameLine n ++ R) =
      (match parseMembers (f + 3) R with
       | none => none
       | some (ms, r6) => some (("name".data, Json.str n.data) :: ms, r6)) := by
  show (match (match parseStringBody ((n.data ++ "\",".data) ++ R) with
         | none => none
         | some (sb, r2) => some (Json.str sb, r2)) with
    | none => none
    | some (v, r4) =>
      match skipJsonWs r4 with
      | ',' :: r5 =>
        (match parseMembers (f + 3) r5 with
         | none => none
         | some (ms, r6) => some (("name".data, v) :: ms, r6))
      | '\x7d' :: r5 => some ([("name".data, v)], r5)
      | _ => none) =
    (match parseMembers (f + 3) R with
     | none => none
     | some (ms, r6) => some (("name".data, Json.str n.data) :: ms, r6))
  rw [show (n.data ++ "\",".data) ++ R = n.data ++ '"' :: ',' :: R from by
    rw [List.append_assoc]; rfl]
  rw [parseStringBody_safe n.data hn (',' :: R)]
  rfl

theorem pm_meta (f : Nat) (R : List Char) :
    parseMembers (f + 5) (metaLine ++ R) =
      (match parseMembers (f + 4) R with
       | none => none
       | some (ms, r6) => some (("metadata".data, Json.obj []) :: ms, r6)) := rfl

theorem pm_id (f : Nat) (R : List Char) :
    parseMembers (f + 6) (idLine ++ R) =
      (match parseMembers (f + 5) R with
       | none => none
       | some (ms, r6) => some (("id".data, Json.null) :: ms, r6)) := rfl

theorem pm_cache (c : String) (hc : strSafe c) (f : Nat) (R : List Char) :
    parseMembers (f + 7)
      ((("\"cacheID\": \"".data ++ c.data) ++ "\",".data) ++ R) =
      (match parseMembers (f + 6) R with
       | none => none
       | some (ms, r6) => some (("cacheID".data, Json.str c.data) :: ms, r6)) := by
  show (match (match parseStringBody ((c.data ++ "\",".data) ++ R) with
         | none => none
         | some (sb, r2) => some (Json.str sb, r2)) with
    | none => none
    | some (v, r4) =>
      match skipJsonWs r4 with
      | ',' :: r5 =>
        (match parseMembers (f + 6) r5 with
         | none => none
         | some (ms, r6) => some (("cacheID".data, v) :: ms, r6))
      | '\x7d' :: r5 => some ([("cacheID".data, v)], r5)
      | _ => none) =
    (match parseMembers (f + 6) R with
     | none => none
     | some (ms, r6) => some (("cacheID".data, Json.str c.data) :: ms, r6))
  rw [show (c.data ++ "\",".data) ++ R = c.data ++ '"' :: ',' :: R from by
    rw [List.append_assoc]; rfl]
  rw [parseStringBody_safe c.data hc (',' :: R)]
  rfl

/-- The six parsed members of the fragment's object. -/
def fragmentMembers (n t c : String) : List (List Char × Json) :=
  [("cacheID".data, Json.str c.data), ("id".data, Json.null),
   ("metadata".data, Json.obj []), ("name".data, Json.str n.data),
   ("operationKind".data, Json.str "query".data),
   ("text".data, Json.str t.data)]

theorem parseValue_rawFragment (n t c : String)
    (hn : strSafe n) (ht : strSafe t) (hc : strSafe c) (f : Nat) :
    parseValue (f + 8) (rawFragment n t c) =
      some (Json.obj (fragmentMembers n t c), []) := by
  show (match parseMembers (f + 7)
      ((("\"cacheID\": \"".data ++ c.data) ++ "\",".data) ++
        (idLine ++ (metaLine ++ (nameLine n ++
          (opLine ++ (textLine t ++ ("  \x7d".data ++ []))))))) with
    | none => none
    | some (ms, r3) => some (Json.obj ms, r3)) =
    some (Json.obj (fragmentMembers n t c), [])
  rw [pm_cache c hc f (idLine ++ (metaLine ++ (nameLine n ++
    (opLine ++ (textLine t ++ ("  \x7d".data ++ []))))))]
  rw [pm_id f (metaLine ++ (nameLine n ++
    (opLine ++ (textLine t ++ ("  \x7d".data ++ [])))))]
  rw [pm_meta f (nameLine n ++ (opLine ++ (textLine t ++ ("  \x7d".data ++ []))))]
  rw [pm_name n hn f (opLine ++ (textLine t ++ ("  \x7d".data ++ [])))]
  rw [pm_op f (textLine t ++ ("  \x7d".data ++ []))]
  rw [pm_text t ht f]
  rfl

/-- The descriptor the textual pipeline extracts from the canonical file. -/
def renderParams (n t c : String) : Params :=
  { cache_id := c, id := none, metadata := .obj [], name := n,
    operation_kind := "query", text := t }

theorem serde_rawFragment (n t c : String)
    (hn : strSafe n) (ht : strSafe t) (hc : strSafe c) :
    serdeFromStr (rawFragment n t c) = some (renderParams n t c) := by
  have h16 : ("    \"cacheID\": \"".data).length = 16 := by decide
  have h1 : 16 ≤ (cacheLine c).length := by
    show 16 ≤ (("    \"cacheID\": \"".data ++ c.data) ++ "\",".data).length
    rw [List.length_append, List.length_append]
    omega
  have h2 : (rawFragment n t c).length =
      (cacheLine c ++ (idLine ++ (metaLine ++ (nameLine n ++
        (opLine ++ (textLine t ++ ("  \x7d".data ++ []))))))).length + 1 := rfl
  rw [List.length_append] at h2
  have h7 : 7 ≤ (rawFragment n t c).length := by omega
  have hf : (rawFragment n t c).length + 1 =
      ((rawFragment n t c).length + 1 - 8) + 8 := by omega
  unfold serdeFromStr
  rw [hf]
  rw [parseValue_rawFragment n t c hn ht hc ((rawFragment n t c).length + 1 - 8)]
  rfl

/-- The textual extractor on the canonical file. -/
theorem get_params_render (n t c : String)
    (hn : strSafe n) (ht : strSafe t) (hc : strSafe c) :
    get_params (renderFile n t c) = .ok (some (renderParams n t c)) := by
  unfold get_params
  rw [find_params_render n t c hn ht hc]
  show (match serdeFromStr (rawFragment n t c) with
    | some p => Except.ok (some p)
    | none => Except.error Error.ParamSerialization) =
    Except.ok (some (renderParams n t c))
  rw [serde_rawFragment n t c hn ht hc]

set_option maxHeartbeats 2000000 in
/-- The structural extractor on the canonical file's syntax tree. -/
theorem get_params_swc_render (n t c : String) :
    get_params_swc (renderModule n t c) =
      .ok (some { Params.default with name := n, text := t }) := rfl

/-- Claim C1: on every well-formed, consistently-indented descriptor file
(rendered canonically, with JSON-safe name, text and cacheID strings),
both the textual extractor (`get_params`) and the structural extractor
(`get_params_swc`, on the file's syntax tree) return a descriptor, and the
two descriptors carry the identical `(name, text)` pair — the embedded
one. -/
theorem extractors_agree (n t c : String)
    (hn : strSafe n) (ht : strSafe t) (hc : strSafe c) :
    ∃ p q : Params,
      get_params (renderFile n t c) = .ok (some p) ∧
      get_params_swc (renderModule n t c) = .ok (some q) ∧
      p.name = q.name ∧ p.text = q.text ∧ q.name = n ∧ q.text = t :=
  ⟨renderParams n t c, { Params.default with name := n, text := t },
    get_params_render n t c hn ht hc, get_params_swc_render n t c,
    rfl, rfl, rfl, rfl⟩

/-- Witness for claim C1 at the spec's example descriptor
`name="FooQuery"`, `text="query Foo{x}"`. -/
theorem extractors_agree_witness :
    ∃ p q : Params,
      get_params (renderFile "FooQuery" "query Foo\x7bx\x7d" "c1") =
        .ok (some p) ∧
      get_params_swc (renderModule "FooQuery" "query Foo\x7bx\x7d" "c1") =
        .ok (some q) ∧
      p.name = q.name ∧ p.text = q.text ∧ q.name = "FooQuery" ∧
      q.text = "query Foo\x7bx\x7d" :=
  extractors_agree "FooQuery" "query Foo\x7bx\x7d" "c1"
    (by decide) (by decide) (by decide)

end SignQueries
